import Mathlib

/-!
Shallow embedding of `pyro/contrib/funsor/infer/traceenum_elbo.py`.

Funsor factors are modelled symbolically: an opaque atom carries an identifier
and its set of free variables ("inputs"); the algebraic operations the file
uses (`*`, `-`, `+`, `Integrate`, `.reduce(add, vars)`) become constructors.
The external collaborators `funsor.sum_product.partial_sum_product` and
`funsor.sum_product.sum_product` are taken as parameters (they live in the
funsor library, outside this repository).  Trace records mirror the site
dictionaries the extractor reads; `prune_subsample_sites` is an external
helper, so a trace here stands for the already-pruned ordered site mapping.
-/

/-- Symbolic funsor expression.  `atom` is an opaque factor with an identity
and a set of free variables; the other constructors mirror the algebraic
operations `traceenum_elbo.py` applies to factors. -/
inductive Funsor where
  | atom : Nat → Finset String → Funsor
  | const : Int → Funsor
  | mul : Funsor → Funsor → Funsor
  | add : Funsor → Funsor → Funsor
  | neg : Funsor → Funsor
  | integrate : Funsor → Funsor → Finset String → Funsor
  | reduceAdd : Funsor → Finset String → Funsor
deriving DecidableEq

/-- Free variables of a symbolic factor, mirroring funsor's `.inputs`. -/
def Funsor.inputs : Funsor → Finset String
  | .atom _ vs => vs
  | .const _ => ∅
  | .mul a b => a.inputs ∪ b.inputs
  | .add a b => a.inputs ∪ b.inputs
  | .neg a => a.inputs
  | .integrate a b vs => (a.inputs ∪ b.inputs) \ vs
  | .reduceAdd a vs => a.inputs \ vs

/-- One entry of a site's `cond_indep_stack`: a plate frame. -/
structure Frame where
  name : String
  vectorized : Bool
deriving DecidableEq

/-- The nested `node["funsor"]` dictionary of a trace site. -/
structure FunsorRecord where
  log_prob : Funsor
  log_measure : Option Funsor
  scale : Funsor
  value : Funsor
deriving DecidableEq

/-- A trace site record, with the fields `terms_from_trace` reads.  The two
`node.get(..., False)` lookups are modelled as Bool fields (absent = false). -/
structure Node where
  type : String
  is_observed : Bool
  cond_indep_stack : List Frame
  funsor : FunsorRecord
  replay_skipped : Bool
  replay_active : Bool
deriving DecidableEq

/-- A trace: the ordered site-name-to-record mapping (after subsample-site
pruning, which is done by the external `prune_subsample_sites`). -/
abbrev Trace := List (String × Node)

/-- The term-set dictionary built by `terms_from_trace`. -/
structure Terms where
  log_factors : List Funsor
  log_measures : List Funsor
  scale : Funsor
  plate_vars : Finset String
  measure_vars : Finset String
deriving DecidableEq

/-- Initial term-set: empty lists and sets, scale `to_funsor(1.)`. -/
def initTerms : Terms := ⟨[], [], Funsor.const 1, ∅, ∅⟩

/-- Names of the vectorized frames of a `cond_indep_stack`. -/
def vecNames (stack : List Frame) : Finset String :=
  ((stack.filter fun f => f.vectorized).map Frame.name).toFinset

/-- Replace a record's `log_prob` by `log_prob * scale` (the in-place
`node["funsor"]["log_prob"] *= node["funsor"]["scale"]` rebinding). -/
def scaleRecord (fr : FunsorRecord) : FunsorRecord :=
  ⟨Funsor.mul fr.log_prob fr.scale, fr.log_measure, fr.scale, fr.value⟩

/-- The node after the default-scale branch updated its `log_prob` field. -/
def scaleNode (n : Node) : Node :=
  ⟨n.type, n.is_observed, n.cond_indep_stack, scaleRecord n.funsor,
   n.replay_skipped, n.replay_active⟩

/-- The `log_factors` list after a sample site: the site's `log_prob` is
appended when the site is observed or not replay-skipped (line 28-29 of the
source); the append happens before any scale update, so the appended factor
is the entry-state `log_prob`. -/
def updFactors (terms : Terms) (node : Node) : List Funsor :=
  if node.is_observed = true ∨ node.replay_skipped = false
  then terms.log_factors ++ [node.funsor.log_prob]
  else terms.log_factors

/-- The `log_measures` list after a sample site: the site's `log_measure` is
appended when present. -/
def updMeasures (terms : Terms) (node : Node) : List Funsor :=
  match node.funsor.log_measure with
  | some m => terms.log_measures ++ [m]
  | none => terms.log_measures

/-- The `measure_vars` set after a sample site, at accumulated plate set
`pv`.  The Python expression
`frozenset(value.inputs) | frozenset([name]) - plate_vars` groups as
`inputs ∪ ({name} \ plate_vars)`, since `-` binds tighter than `|`; the
embedding reproduces that grouping. -/
def updMeasureVars (terms : Terms) (pv : Finset String) (name : String)
    (node : Node) : Finset String :=
  match node.funsor.log_measure with
  | some _ =>
    terms.measure_vars ∪
      (node.funsor.value.inputs ∪ (({name} : Finset String) \ pv))
  | none => terms.measure_vars

/-- The shared-scale condition of the source (line 40): the site's replay is
active and its `log_prob` keeps free variables after removing the plate
variables accumulated so far and the site's own name. -/
def sharedCond (pv : Finset String) (name : String) (node : Node) : Prop :=
  node.replay_active = true ∧
    ((node.funsor.log_prob.inputs \ pv) \ ({name} : Finset String)) ≠ ∅

instance (pv : Finset String) (name : String) (node : Node) :
    Decidable (sharedCond pv name node) := by
  unfold sharedCond; infer_instance

/-- One iteration of the `terms_from_trace` loop on site `(name, node)`:
returns the updated term-set and the node as it stands afterwards (the
default-scale branch rebinds the node's `log_prob` to `log_prob * scale`;
the shared-scale branch records the site's scale and leaves the node
untouched). -/
def stepSite (terms : Terms) (name : String) (node : Node) : Terms × Node :=
  if node.type ≠ "sample" then (terms, node) else
  let pv := terms.plate_vars ∪ vecNames node.cond_indep_stack
  if sharedCond pv name node
  then (⟨updFactors terms node, updMeasures terms node, node.funsor.scale, pv,
         updMeasureVars terms pv name node⟩, node)
  else (⟨updFactors terms node, updMeasures terms node, terms.scale, pv,
         updMeasureVars terms pv name node⟩, scaleNode node)

/-- The `terms_from_trace` loop over the whole trace, threading the term-set
accumulator and collecting the post-call state of every node. -/
def processNodes (acc : Terms) : Trace → Terms × Trace
  | [] => (acc, [])
  | (name, node) :: rest =>
    let s := stepSite acc name node
    let r := processNodes s.1 rest
    (r.1, (name, s.2) :: r.2)

/-- `terms_from_trace`: the returned term-set together with the trace as it
stands after the call (the function updates `log_prob` fields in place). -/
def terms_from_trace (tr : Trace) : Terms × Trace :=
  processNodes initTerms tr

/-- Partition of the model's `log_factors` into contracted factors (whose
inputs meet `measure_vars`) and uncontracted ones, in the loop order of
`differentiable_loss` (order within each part follows the input list). -/
def partitionFactors (mv : Finset String) : List Funsor → List Funsor × List Funsor
  | [] => ([], [])
  | f :: rest =>
    let p := partitionFactors mv rest
    if mv ∩ f.inputs ≠ ∅ then (f :: p.1, p.2) else (p.1, f :: p.2)

/-- Shape of the external elimination routines from `funsor.sum_product`: a
list of factors, the plate set and the eliminate set.  The semiring operators
are fixed to `(logaddexp, add)` at both call sites, so they are left
implicit.  `PspFun` returns the remaining factor list, `SpFun` one factor. -/
abbrev PspFun := List Funsor → Finset String → Finset String → List Funsor

/-- Shape of `funsor.sum_product.sum_product` as used on the guide side. -/
abbrev SpFun := List Funsor → Finset String → Finset String → Funsor

/-- The cost-term list assembled by `differentiable_loss` from the two
term-sets: scaled eliminated model factors, then uncontracted model factors,
then negated guide factors. -/
def costsOf (psp : PspFun) (guide_terms model_terms : Terms) : List Funsor :=
  let p := partitionFactors model_terms.measure_vars model_terms.log_factors
  let eliminated := psp (model_terms.log_measures ++ p.1)
      model_terms.plate_vars model_terms.measure_vars
  eliminated.map (Funsor.mul model_terms.scale) ++ p.2 ++
    guide_terms.log_factors.map Funsor.neg

/-- The per-cost loop body of `differentiable_loss`: marginalize the guide's
log-measures down to the cost's inputs plus plates, integrate the cost over
the relevant guide measure variables, then reduce over the relevant plates. -/
def costTerm (sp : SpFun) (guide_terms : Terms) (plate_vars : Finset String)
    (cost : Funsor) : Funsor :=
  Funsor.reduceAdd
    (Funsor.integrate
      (sp guide_terms.log_measures plate_vars
        ((plate_vars ∪ guide_terms.measure_vars) \ cost.inputs))
      cost
      (guide_terms.measure_vars ∩ cost.inputs))
    (plate_vars ∩ cost.inputs)

/-- The accumulation loop of `differentiable_loss`: start from `to_funsor(0)`
and add each cost's contribution. -/
def elboOf (sp : SpFun) (guide_terms : Terms) (plate_vars : Finset String)
    (costs : List Funsor) : Funsor :=
  costs.foldl (fun e c => Funsor.add e (costTerm sp guide_terms plate_vars c))
    (Funsor.const 0)

/-- `TraceEnum_ELBO.differentiable_loss`, from the two traces onward (trace
generation by `enum`/`replay` handlers is external): extract term-sets,
assemble costs, accumulate the elbo expression, and return its negation
(evaluation via `apply_optimizer`/`to_data` is external and value-preserving). -/
def differentiable_loss (psp : PspFun) (sp : SpFun) (guide_tr model_tr : Trace) : Funsor :=
  let guide_terms := (terms_from_trace guide_tr).1
  let model_terms := (terms_from_trace model_tr).1
  let costs := costsOf psp guide_terms model_terms
  Funsor.neg (elboOf sp guide_terms
    (guide_terms.plate_vars ∪ model_terms.plate_vars) costs)

/-- Configuration fields of `TraceEnum_ELBO` that `differentiable_loss`
reads; they only shape the external trace generation. -/
structure TraceEnum_ELBO where
  num_particles : Nat
  max_plate_nesting : Nat
deriving DecidableEq

/-- `TraceEnum_ELBO._get_trace`: unconditionally raises
`ValueError("shouldn't be here")`; raising is modelled as `Except.error`. -/
def TraceEnum_ELBO._get_trace (_self : TraceEnum_ELBO)
    (_args _kwargs : List String) : Except String Trace :=
  Except.error "shouldn\x27t be here"

/-- Transcription of the specification's per-cost rule (section 4.5): (1)
marginalize the guide via sum-product elimination with plates the union of
guide and model plate variables and eliminate set
`(plate_vars ∪ guide_measure_vars) \ inputs(c)`; (2) integrate `c` over
`guide_measure_vars ∩ inputs(c)`; (3) reduce by addition over
`plate_vars ∩ inputs(c)`. -/
def specCostContribution (sp : SpFun) (guide_terms : Terms)
    (plate_vars : Finset String) (c : Funsor) : Funsor :=
  let log_prob := sp guide_terms.log_measures plate_vars
      ((plate_vars ∪ guide_terms.measure_vars) \ c.inputs)
  let expectation := Funsor.integrate log_prob c
      (guide_terms.measure_vars ∩ c.inputs)
  Funsor.reduceAdd expectation (plate_vars ∩ c.inputs)

/-- Scale of the last sample site, in trace order, that satisfies the
shared-scale condition (replay active and residual free variables of its
`log_prob` beyond the plate variables accumulated so far and its own name);
`none` when no site satisfies it.  Plate variables accumulate left to
right exactly as in the extractor's loop. -/
def lastSharedScale (pv : Finset String) : Trace → Option Funsor
  | [] => none
  | (name, node) :: rest =>
    if node.type = "sample" then
      let pv' := pv ∪ vecNames node.cond_indep_stack
      let tail := lastSharedScale pv' rest
      if sharedCond pv' name node
      then some (tail.getD node.funsor.scale)
      else tail
    else lastSharedScale pv rest

/-- A sample site contributes its (entry-state) `log_prob` to `log_factors`
exactly when it is observed or not replay-skipped. -/
def keepFactor (p : String × Node) : Bool :=
  decide (p.2.type = "sample" ∧
    (p.2.is_observed = true ∨ p.2.replay_skipped = false))

/-- The accumulation loop over cost contributions in exact arithmetic:
`elbo = 0; for cost in costs: elbo += contrib(cost)`. -/
def accumulateLoss (contrib : Funsor → ℚ) (costs : List Funsor) : ℚ :=
  costs.foldl (fun e c => e + contrib c) 0

theorem stepSite_not_sample (terms : Terms) (name : String) (node : Node)
    (h : ¬ node.type = "sample") : stepSite terms name node = (terms, node) := by
  simp [stepSite, h]

theorem stepSite_shared (terms : Terms) (name : String) (node : Node)
    (ht : node.type = "sample")
    (hc : sharedCond (terms.plate_vars ∪ vecNames node.cond_indep_stack) name node) :
    stepSite terms name node =
      (⟨updFactors terms node, updMeasures terms node, node.funsor.scale,
        terms.plate_vars ∪ vecNames node.cond_indep_stack,
        updMeasureVars terms (terms.plate_vars ∪ vecNames node.cond_indep_stack)
          name node⟩, node) := by
  simp [stepSite, ht, hc]

theorem stepSite_default (terms : Terms) (name : String) (node : Node)
    (ht : node.type = "sample")
    (hc : ¬ sharedCond (terms.plate_vars ∪ vecNames node.cond_indep_stack) name node) :
    stepSite terms name node =
      (⟨updFactors terms node, updMeasures terms node, terms.scale,
        terms.plate_vars ∪ vecNames node.cond_indep_stack,
        updMeasureVars terms (terms.plate_vars ∪ vecNames node.cond_indep_stack)
          name node⟩, scaleNode node) := by
  simp [stepSite, ht, hc]

theorem stepSite_snd (terms : Terms) (name : String) (node : Node) :
    (stepSite terms name node).2 = node ∨
      (stepSite terms name node).2 = scaleNode node := by
  by_cases ht : node.type = "sample"
  · by_cases hc : sharedCond (terms.plate_vars ∪ vecNames node.cond_indep_stack) name node
    · rw [stepSite_shared _ _ _ ht hc]; exact Or.inl rfl
    · rw [stepSite_default _ _ _ ht hc]; exact Or.inr rfl
  · rw [stepSite_not_sample _ _ _ ht]; exact Or.inl rfl

theorem processNodes_cons (acc : Terms) (name : String) (node : Node) (tl : Trace) :
    processNodes acc ((name, node) :: tl) =
      ((processNodes (stepSite acc name node).1 tl).1,
       (name, (stepSite acc name node).2) ::
         (processNodes (stepSite acc name node).1 tl).2) := rfl

theorem processNodes_append (acc : Terms) (l1 l2 : Trace) :
    processNodes acc (l1 ++ l2) =
      ((processNodes (processNodes acc l1).1 l2).1,
       (processNodes acc l1).2 ++ (processNodes (processNodes acc l1).1 l2).2) := by
  induction l1 generalizing acc with
  | nil => simp [processNodes]
  | cons hd tl ih =>
    obtain ⟨name, node⟩ := hd
    simp [processNodes_cons, ih]

theorem stepSite_fst_log_factors (terms : Terms) (name : String) (node : Node)
    (ht : node.type = "sample") :
    (stepSite terms name node).1.log_factors = updFactors terms node := by
  by_cases hc : sharedCond (terms.plate_vars ∪ vecNames node.cond_indep_stack) name node
  · rw [stepSite_shared _ _ _ ht hc]
  · rw [stepSite_default _ _ _ ht hc]

theorem processNodes_log_factors (acc : Terms) (tr : Trace) :
    (processNodes acc tr).1.log_factors
      = acc.log_factors ++ (tr.filter keepFactor).map (fun p => p.2.funsor.log_prob) := by
  induction tr generalizing acc with
  | nil => simp [processNodes]
  | cons hd tl ih =>
    obtain ⟨name, node⟩ := hd
    rw [processNodes_cons]
    by_cases ht : node.type = "sample"
    · rw [ih, stepSite_fst_log_factors _ _ _ ht, updFactors]
      by_cases hk : node.is_observed = true ∨ node.replay_skipped = false
      · simp [List.filter_cons, keepFactor, ht, hk]
      · simp [List.filter_cons, keepFactor, ht, hk]
    · rw [stepSite_not_sample _ _ _ ht, ih]
      simp [List.filter_cons, keepFactor, ht]

theorem processNodes_scale (acc : Terms) (tr : Trace) :
    (processNodes acc tr).1.scale
      = (lastSharedScale acc.plate_vars tr).getD acc.scale := by
  induction tr generalizing acc with
  | nil => simp [processNodes, lastSharedScale]
  | cons hd tl ih =>
    obtain ⟨name, node⟩ := hd
    rw [processNodes_cons]
    by_cases ht : node.type = "sample"
    · by_cases hc : sharedCond (acc.plate_vars ∪ vecNames node.cond_indep_stack) name node
      · rw [stepSite_shared _ _ _ ht hc, ih]
        simp [lastSharedScale, ht, hc]
      · rw [stepSite_default _ _ _ ht hc, ih]
        simp [lastSharedScale, ht, hc]
    · rw [stepSite_not_sample _ _ _ ht, ih]
      simp [lastSharedScale, ht]

theorem processNodes_nodes (acc : Terms) (tr : Trace) :
    List.Forall₂ (fun (p q : String × Node) =>
      q.1 = p.1 ∧ (q.2 = p.2 ∨ q.2 = scaleNode p.2)) tr (processNodes acc tr).2 := by
  induction tr generalizing acc with
  | nil => simp [processNodes]
  | cons hd tl ih =>
    obtain ⟨name, node⟩ := hd
    rw [processNodes_cons]
    exact List.Forall₂.cons ⟨rfl, stepSite_snd acc name node⟩ (ih _)

theorem partitionFactors_eq_filter (mv : Finset String) (fs : List Funsor) :
    partitionFactors mv fs
      = (fs.filter (fun f => decide ((mv ∩ f.inputs) ≠ ∅)),
         fs.filter (fun f => decide ((mv ∩ f.inputs) = ∅))) := by
  induction fs with
  | nil => rfl
  | cons f rest ih =>
    by_cases hf : (mv ∩ f.inputs) = ∅
    · simp [partitionFactors, ih, hf]
    · simp [partitionFactors, ih, hf]

theorem foldl_add_rat (g : Funsor → ℚ) (a : ℚ) (l : List Funsor) :
    l.foldl (fun e c => e + g c) a = a + (l.map g).sum := by
  induction l generalizing a with
  | nil => simp
  | cons c rest ih => simp [ih, add_assoc]

/-- Concrete latent site for claim C1: a sample site `x` inside the
vectorized plate `p`, carrying a `log_measure`, whose sampled value has free
variables `{x, p}` (the usual shape of a batched latent). -/
def nodeX : Node :=
  ⟨"sample", false, [⟨"p", true⟩],
   ⟨Funsor.atom 0 {"x", "p"}, some (Funsor.atom 1 {"x", "p"}), Funsor.const 1,
    Funsor.atom 2 {"x", "p"}⟩, false, false⟩

/-- Concrete latent site for claim C2, of the same shape as `nodeX`: sample
site `z` inside the vectorized plate `q`, value free variables `{z, q}`. -/
def nodeZ : Node :=
  ⟨"sample", false, [⟨"q", true⟩],
   ⟨Funsor.atom 3 {"z", "q"}, some (Funsor.atom 4 {"z", "q"}), Funsor.const 1,
    Funsor.atom 5 {"z", "q"}⟩, false, false⟩

/-- Concrete site for claim C7: an unobserved sample site `y` taking the
default-scale branch, with a non-trivial scale factor. -/
def nodeY : Node :=
  ⟨"sample", false, [],
   ⟨Funsor.atom 6 ∅, none, Funsor.atom 5 ∅, Funsor.atom 7 ∅⟩, false, false⟩

/-- Concrete sample site used to instantiate per-site theorems. -/
def nodeW : Node :=
  ⟨"sample", true, [],
   ⟨Funsor.atom 10 ∅, none, Funsor.const 1, Funsor.atom 11 ∅⟩, false, false⟩

/-- Claim C1: the claim says `measure_vars` grows by exactly
`(free variables of the sampled value ∪ {site name}) \ plate_vars`.  The code
disagrees: in `frozenset(value.inputs) | frozenset([name]) - plate_vars` the
difference binds tighter than the union, so plate variables occurring among
the value's free variables are added to `measure_vars`.  At the failing
input `[(x, nodeX)]`, the code yields `measure_vars = {x, p}` while the
claimed increment is `{x}`, contradicting the code's own comment ("the
fresh non-plate variables at a site"). -/
theorem measure_vars_precedence_divergence :
    (terms_from_trace [("x", nodeX)]).1.plate_vars = ({"p"} : Finset String) ∧
    (terms_from_trace [("x", nodeX)]).1.measure_vars = ({"x", "p"} : Finset String) ∧
    (terms_from_trace [("x", nodeX)]).1.measure_vars ≠
      (nodeX.funsor.value.inputs ∪ ({"x"} : Finset String)) \
        (terms_from_trace [("x", nodeX)]).1.plate_vars := by
  refine ⟨by decide, by decide, by decide⟩

/-- Claim C2: the claimed invariant that `plate_vars` and `measure_vars` are
disjoint fails on the code: with one latent sample site `z` inside
vectorized plate `q` whose value mentions `q`, the plate variable `q` ends
up in both sets (a consequence of the same operator-precedence slip as in
claim C1). -/
theorem plate_measure_vars_overlap :
    "q" ∈ (terms_from_trace [("z", nodeZ)]).1.plate_vars ∧
    "q" ∈ (terms_from_trace [("z", nodeZ)]).1.measure_vars ∧
    ¬ Disjoint (terms_from_trace [("z", nodeZ)]).1.plate_vars
        (terms_from_trace [("z", nodeZ)]).1.measure_vars := by
  refine ⟨by decide, by decide, by decide⟩

/-- Claim C3: for every cost term the loop of `differentiable_loss` computes
its contribution in the three specified steps -- (1) sum-product elimination
of the guide's `log_measures` with plates the union of guide and model
`plate_vars` and eliminate set `(plate_vars ∪ guide_measure_vars) \
inputs(c)`; (2) `Integrate` over `guide_measure_vars ∩ inputs(c)`; (3)
additive reduction over `plate_vars ∩ inputs(c)` -- and the contributions are
accumulated by addition starting from `to_funsor(0)`. -/
theorem per_cost_three_steps (psp : PspFun) (sp : SpFun)
    (guide_tr model_tr : Trace) :
    (∀ (gt : Terms) (pv : Finset String) (c : Funsor),
      costTerm sp gt pv c = specCostContribution sp gt pv c) ∧
    differentiable_loss psp sp guide_tr model_tr =
      Funsor.neg
        ((costsOf psp (terms_from_trace guide_tr).1 (terms_from_trace model_tr).1).foldl
          (fun e c => Funsor.add e
            (specCostContribution sp (terms_from_trace guide_tr).1
              ((terms_from_trace guide_tr).1.plate_vars ∪
                (terms_from_trace model_tr).1.plate_vars) c))
          (Funsor.const 0)) :=
  ⟨fun _ _ _ => rfl, rfl⟩

/-- Claim C4: `differentiable_loss` splits the model's `log_factors` into
contracted factors (inputs meeting the model's `measure_vars`) and
uncontracted ones, each keeping the extractor's order (they equal the
corresponding filters of `log_factors`), and the cost list is exactly the
shared scale times each eliminated factor, then the uncontracted factors,
then the negated guide factors, in that order. -/
theorem cost_list_assembly (psp : PspFun) (gt mt : Terms) :
    partitionFactors mt.measure_vars mt.log_factors
      = (mt.log_factors.filter (fun f => decide ((mt.measure_vars ∩ f.inputs) ≠ ∅)),
         mt.log_factors.filter (fun f => decide ((mt.measure_vars ∩ f.inputs) = ∅))) ∧
    costsOf psp gt mt
      = ((psp (mt.log_measures ++
            mt.log_factors.filter (fun f => decide ((mt.measure_vars ∩ f.inputs) ≠ ∅)))
          mt.plate_vars mt.measure_vars).map (Funsor.mul mt.scale))
        ++ mt.log_factors.filter (fun f => decide ((mt.measure_vars ∩ f.inputs) = ∅))
        ++ gt.log_factors.map Funsor.neg := by
  refine ⟨partitionFactors_eq_filter _ _, ?_⟩
  unfold costsOf
  rw [partitionFactors_eq_filter]

/-- Claim C5: every sample site takes exactly one of the two scale
behaviours.  If the shared-scale condition holds (replay active and the
site's `log_prob` has free variables beyond the accumulated plate variables
and its own name), the site's scale becomes the term-set's scale and the
node is left unscaled; otherwise -- including replay-active sites with no
residual free variables, a normal path -- the node's `log_prob` is multiplied
by its own scale.  The third conjunct places the per-site step inside
`terms_from_trace` at the site's position. -/
theorem scale_branch_dichotomy (pre post : Trace) (name : String) (node : Node)
    (h : node.type = "sample") :
    (sharedCond ((processNodes initTerms pre).1.plate_vars ∪
        vecNames node.cond_indep_stack) name node →
      (stepSite (processNodes initTerms pre).1 name node).1.scale = node.funsor.scale ∧
      (stepSite (processNodes initTerms pre).1 name node).2 = node) ∧
    (¬ sharedCond ((processNodes initTerms pre).1.plate_vars ∪
        vecNames node.cond_indep_stack) name node →
      (stepSite (processNodes initTerms pre).1 name node).1.scale
          = (processNodes initTerms pre).1.scale ∧
      (stepSite (processNodes initTerms pre).1 name node).2 = scaleNode node) ∧
    (terms_from_trace (pre ++ (name, node) :: post)).2
      = (processNodes initTerms pre).2 ++
          (name, (stepSite (processNodes initTerms pre).1 name node).2) ::
            (processNodes (stepSite (processNodes initTerms pre).1 name node).1 post).2 := by
  refine ⟨?_, ?_, ?_⟩
  · intro hc
    rw [stepSite_shared _ _ _ h hc]
    exact ⟨rfl, rfl⟩
  · intro hc
    rw [stepSite_default _ _ _ h hc]
    exact ⟨rfl, rfl⟩
  · show (processNodes initTerms (pre ++ (name, node) :: post)).2 = _
    rw [processNodes_append, processNodes_cons]

/-- Witness for claim C5: the dichotomy instantiated at the concrete sample
site `nodeW` as the only site of the trace. -/
theorem scale_branch_dichotomy_witness :
    (sharedCond ((processNodes initTerms []).1.plate_vars ∪
        vecNames nodeW.cond_indep_stack) "w" nodeW →
      (stepSite (processNodes initTerms []).1 "w" nodeW).1.scale = nodeW.funsor.scale ∧
      (stepSite (processNodes initTerms []).1 "w" nodeW).2 = nodeW) ∧
    (¬ sharedCond ((processNodes initTerms []).1.plate_vars ∪
        vecNames nodeW.cond_indep_stack) "w" nodeW →
      (stepSite (processNodes initTerms []).1 "w" nodeW).1.scale
          = (processNodes initTerms []).1.scale ∧
      (stepSite (processNodes initTerms []).1 "w" nodeW).2 = scaleNode nodeW) ∧
    (terms_from_trace ([] ++ ("w", nodeW) :: [])).2
      = (processNodes initTerms []).2 ++
          ("w", (stepSite (processNodes initTerms []).1 "w" nodeW).2) ::
            (processNodes (stepSite (processNodes initTerms []).1 "w" nodeW).1 []).2 :=
  scale_branch_dichotomy [] [] "w" nodeW rfl

/-- Claim C6: the extracted scale equals the scale of the last sample site
(in trace order) satisfying the shared-scale condition -- later satisfying
sites silently overwrite earlier ones, with no uniqueness check and no
error -- and equals the constant factor `to_funsor(1.)` when no site
satisfies it. -/
theorem scale_last_write_wins (tr : Trace) :
    (terms_from_trace tr).1.scale
      = (lastSharedScale ∅ tr).getD (Funsor.const 1) :=
  processNodes_scale initTerms tr

/-- Counterexample for claim C7: `terms_from_trace` is not read-only.  On
the one-site trace `[(y, nodeY)]` the default-scale branch rebinds the
node's `log_prob` to `log_prob * scale`, so the trace after the call differs
from the input trace. -/
theorem trace_not_read_only :
    (terms_from_trace [("y", nodeY)]).2 ≠ [("y", nodeY)] ∧
    (terms_from_trace [("y", nodeY)]).2 = [("y", scaleNode nodeY)] := by
  refine ⟨by decide, by decide⟩

/-- Claim C7 as amended: `terms_from_trace` preserves the site names and
their order, and every field of every site record survives unchanged except
that a site's `log_prob` may be replaced by `log_prob * scale` (the
default-scale branch; `scaleNode` changes only the `log_prob` field). -/
theorem trace_mutation_only_log_prob (tr : Trace) :
    List.Forall₂ (fun (p q : String × Node) =>
      q.1 = p.1 ∧ (q.2 = p.2 ∨ q.2 = scaleNode p.2)) tr (terms_from_trace tr).2 :=
  processNodes_nodes initTerms tr

/-- Claim C8: the extracted `log_factors` are exactly the entry-state
`log_prob` factors of the sample sites that are observed or not
replay-skipped, in trace order; unobserved replay-skipped sample sites
contribute no factor. -/
theorem log_factors_exactly (tr : Trace) :
    (terms_from_trace tr).1.log_factors
      = (tr.filter keepFactor).map (fun p => p.2.funsor.log_prob) := by
  have h := processNodes_log_factors initTerms tr
  simpa [terms_from_trace, initTerms] using h

/-- Claim C9: the legacy single-trace retrieval `_get_trace` raises
`ValueError` immediately and unconditionally, for every receiver and every
argument list, and never returns a trace. -/
theorem get_trace_always_raises (self : TraceEnum_ELBO) (args kwargs : List String) :
    TraceEnum_ELBO._get_trace self args kwargs
        = Except.error "shouldn\x27t be here" ∧
    ∀ tr : Trace, TraceEnum_ELBO._get_trace self args kwargs ≠ Except.ok tr :=
  ⟨rfl, fun _ h => Except.noConfusion h⟩

/-- Claim C10: permuting the cost terms fed to the accumulation loop does
not change the final scalar in exact arithmetic: for every numeric valuation
`sem` of the lazy expressions, accumulating the valuations of the per-cost
contributions over a permuted cost list yields the same total. -/
theorem cost_order_invariance (sem : Funsor → ℚ) (sp : SpFun) (gt : Terms)
    (pv : Finset String) (l l' : List Funsor) (h : l.Perm l') :
    accumulateLoss (fun c => sem (costTerm sp gt pv c)) l
      = accumulateLoss (fun c => sem (costTerm sp gt pv c)) l' := by
  unfold accumulateLoss
  rw [foldl_add_rat, foldl_add_rat, List.Perm.sum_eq (h.map _)]

/-- Witness for claim C10: two concrete permuted cost lists and a concrete
valuation give equal accumulated totals. -/
theorem cost_order_invariance_witness :
    List.Perm [Funsor.const 1, Funsor.const 2] [Funsor.const 2, Funsor.const 1] ∧
    accumulateLoss
        (fun c => ((Funsor.inputs
          (costTerm (fun _ _ _ => Funsor.const 0) initTerms ∅ c)).card : ℚ))
        [Funsor.const 1, Funsor.const 2]
      = accumulateLoss
        (fun c => ((Funsor.inputs
          (costTerm (fun _ _ _ => Funsor.const 0) initTerms ∅ c)).card : ℚ))
        [Funsor.const 2, Funsor.const 1] :=
  ⟨by decide,
   cost_order_invariance
     (fun c => ((Funsor.inputs
       (costTerm (fun _ _ _ => Funsor.const 0) initTerms ∅ c)).card : ℚ))
     (fun _ _ _ => Funsor.const 0) initTerms ∅
     [Funsor.const 1, Funsor.const 2] [Funsor.const 2, Funsor.const 1]
     (by decide)⟩
